import Mathlib

/-!
Shallow embedding of `ghreview` (`main.go`): a tool that fetches a user's
pull-request activity from the GitHub API with a local on-disk cache,
classifies each pull request as authored / merged by the target user,
filters to the target year 2021, and accumulates per-repository results.

The filesystem cache is modelled as an association list from paths to byte
sequences (bytes as `List Nat`).  Network access is modelled by an oracle
`remote : String → Option (Nat × Bytes)` mapping a URL to a status code and
body (`none` = transport-level failure).  JSON decoding (Go `encoding/json`)
is external library code and is modelled by decoder parameters
`Bytes → Option α` (`none` = unmarshalling error).  Fatal process
termination (`log.Fatal`) is modelled by an `Option` result (`none` = the
process died).
-/

namespace GH

abbrev Bytes := List Nat

/-- `type User struct { Login string }` -/
structure User where
  login : String
deriving DecidableEq

/-- `type Event struct { Actor User; Event string }` -/
structure Event where
  actor : User
  event : String
deriving DecidableEq

/-- `type Commit struct { Author User }` -/
structure Commit where
  author : User
deriving DecidableEq

/-- `type Pull struct { ... }`: the fields of a pull request, including the
derived `MyContribution` and `Timestamp` fields filled in by `main`. -/
structure Pull where
  number : Nat
  htmlUrl : String
  createdAt : String
  mergedAt : String
  state : String
  title : String
  user : User
  myContribution : String
  timestamp : String
deriving DecidableEq

/-- The on-disk cache: paths mapped to raw bytes.  Most recent write first. -/
abbrev Store := List (String × Bytes)

/-- `readCache(path)`: returns the bytes at `path`, or `none` when the file
does not exist (any I/O error is a cache miss for the callers). -/
def readCache (store : Store) (path : String) : Option Bytes :=
  match store.find? (fun kv => kv.1 == path) with
  | some kv => some kv.2
  | none => none

/-- Index of the last occurrence of `c` in the character list, as computed by
Go `strings.LastIndex` (`none` models Go's -1 result). -/
def lastIndexOf (c : Char) : List Char → Option Nat
  | [] => none
  | x :: xs =>
    match lastIndexOf c xs with
    | some i => some (i + 1)
    | none => if x = c then some 0 else none

/-- The subdirectory that `writeCache` creates:
`path[:strings.LastIndex(path, "/")]`.  When the path holds no slash, Go's
`LastIndex` yields -1 and the slice `path[:-1]` panics — modelled as `none`. -/
def writeCacheSubdir (path : String) : Option String :=
  match lastIndexOf '/' path.data with
  | some i => some ⟨path.data.take i⟩
  | none => none

/-- `writeCache(path, data)`: slices off the final path component to create
the directory, then writes the file.  `none` models the panic on a slash-free
path; directory creation and file write themselves succeed in the model. -/
def writeCache (store : Store) (path : String) (data : Bytes) : Option Store :=
  match writeCacheSubdir path with
  | some _ => some ((path, data) :: store)
  | none => none

/-- A read leaves the store unchanged; returned alongside the result to state
the two-reads property of the spec. -/
def readCacheOp (store : Store) (path : String) : Option Bytes × Store :=
  (readCache store path, store)

/-- `httpGet(url)`: issues a GET via the oracle.  Transport failure is fatal
(`none`).  The Go code checks only `resp.StatusCode > 299`; any status at or
below 299 returns the body.  The unconditional 5000 ms sleep after a
successful call has no observable effect in the pure model beyond the fact
that a call happened (tracked by the loaders' `fetched` traces). -/
def httpGet (remote : String → Option (Nat × Bytes)) (url : String) :
    Option Bytes :=
  match remote url with
  | none => none
  | some (status, body) => if status > 299 then none else some body

/-- `fmt.Sprintf("cache/%s/pulls/%d.json", repo, page)` -/
def pullsPath (repo : String) (page : Nat) : String :=
  "cache/" ++ repo ++ "/pulls/" ++ toString page ++ ".json"

/-- `fmt.Sprintf("cache/%s/events/%d.json", repo, issueNumber)` -/
def eventsPath (repo : String) (issueNumber : Nat) : String :=
  "cache/" ++ repo ++ "/events/" ++ toString issueNumber ++ ".json"

/-- `fmt.Sprintf("cache/%s/commits/%s.json", repo, sha)` -/
def commitsPath (repo : String) (sha : String) : String :=
  "cache/" ++ repo ++ "/commits/" ++ sha ++ ".json"

/-- `fmt.Sprintf("https://api.github.com/repos/%s/pulls?state=all&page=%d", repo, page)` -/
def pullsUrl (repo : String) (page : Nat) : String :=
  "https://api.github.com/repos/" ++ repo ++ "/pulls?state=all&page=" ++
    toString page

/-- `fmt.Sprintf("https://api.github.com/repos/%s/issues/%d/events", repo, issueNumber)` -/
def eventsUrl (repo : String) (issueNumber : Nat) : String :=
  "https://api.github.com/repos/" ++ repo ++ "/issues/" ++
    toString issueNumber ++ "/events"

/-- `fmt.Sprintf("https://api.github.com/repos/%s/commits/%s", repo, sha)` -/
def commitsUrl (repo : String) (sha : String) : String :=
  "https://api.github.com/repos/" ++ repo ++ "/commits/" ++ sha

/-- Result of a loader call: the decoded value, the store after the call, and
the URLs actually fetched over the network during the call. -/
structure LoadResult (α : Type) where
  value : α
  store : Store
  fetched : List String
deriving DecidableEq

/-- `loadPulls(repo, page)`.  On a cache hit the Go code ignores the
`json.Unmarshal` error and returns the `pulls` variable as-is, so a decode
failure yields the zero value (nil slice, here `[]`).  On a miss it fetches,
writes the cache, and unmarshals with a fatal check. -/
def loadPulls (decodeP : Bytes → Option (List Pull))
    (remote : String → Option (Nat × Bytes)) (store : Store)
    (repo : String) (page : Nat) : Option (LoadResult (List Pull)) :=
  let jsonFilename := pullsPath repo page
  match readCache store jsonFilename with
  | some data => some ⟨(decodeP data).getD [], store, []⟩
  | none =>
    match httpGet remote (pullsUrl repo page) with
    | none => none
    | some body =>
      match writeCache store jsonFilename body with
      | none => none
      | some store1 =>
        match decodeP body with
        | none => none
        | some pulls => some ⟨pulls, store1, [pullsUrl repo page]⟩

/-- `loadEvents(repo, issueNumber)`: same pattern as `loadPulls`; the zero
value of `var events []Event` is the nil slice. -/
def loadEvents (decodeE : Bytes → Option (List Event))
    (remote : String → Option (Nat × Bytes)) (store : Store)
    (repo : String) (issueNumber : Nat) : Option (LoadResult (List Event)) :=
  let jsonFilename := eventsPath repo issueNumber
  match readCache store jsonFilename with
  | some data => some ⟨(decodeE data).getD [], store, []⟩
  | none =>
    match httpGet remote (eventsUrl repo issueNumber) with
    | none => none
    | some body =>
      match writeCache store jsonFilename body with
      | none => none
      | some store1 =>
        match decodeE body with
        | none => none
        | some events => some ⟨events, store1, [eventsUrl repo issueNumber]⟩

/-- `loadCommit(repo, sha)`: same pattern; the zero value of
`var commit Commit` is a struct with an empty author login. -/
def loadCommit (decodeC : Bytes → Option Commit)
    (remote : String → Option (Nat × Bytes)) (store : Store)
    (repo : String) (sha : String) : Option (LoadResult Commit) :=
  let jsonFilename := commitsPath repo sha
  match readCache store jsonFilename with
  | some data => some ⟨(decodeC data).getD ⟨⟨""⟩⟩, store, []⟩
  | none =>
    match httpGet remote (commitsUrl repo sha) with
    | none => none
    | some body =>
      match writeCache store jsonFilename body with
      | none => none
      | some store1 =>
        match decodeC body with
        | none => none
        | some commit => some ⟨commit, store1, [commitsUrl repo sha]⟩

/-- The target user, hardcoded in `main`. -/
def targetUser : String := "mpenkov"

/-- The target year, hardcoded in `main`. -/
def targetYear : Nat := 2021

/-- `parseTime(pull)` restricted to what the program consumes: the year of a
timestamp in the fixed format `2006-01-02T15:04:05Z`.  The shape (lengths,
separators, digits) is validated as Go `time.Parse` does; the field-range
checks Go additionally performs (month at most 12 and so on) do not affect
the year and are elided.  `none` models the fatal parse failure. -/
def parseYear (s : String) : Option Nat :=
  match s.data with
  | [y1, y2, y3, y4, '-', m1, m2, '-', d1, d2, 'T',
     h1, h2, ':', n1, n2, ':', e1, e2, 'Z'] =>
    if y1.isDigit && y2.isDigit && y3.isDigit && y4.isDigit &&
       m1.isDigit && m2.isDigit && d1.isDigit && d2.isDigit &&
       h1.isDigit && h2.isDigit && n1.isDigit && n2.isDigit &&
       e1.isDigit && e2.isDigit then
      some (1000 * (y1.toNat - 48) + 100 * (y2.toNat - 48) +
        10 * (y3.toNat - 48) + (y4.toNat - 48))
    else none
  | _ => none

/-- `ts.Format("2006-01-02")`: for a timestamp of the parsed shape this is
its first ten characters `YYYY-MM-DD`. -/
def formatDate (s : String) : String := ⟨s.data.take 10⟩

/-- `whoMerged(repo, issueNumber)` applied to the event list the Resource
Loader returned: the actor of the first event whose type is `"merged"`, or
the sentinel `User{"nobody"}`. -/
def whoMerged (events : List Event) : User :=
  match events.find? (fun e => e.event == "merged") with
  | some e => e.actor
  | none => ⟨"nobody"⟩

/-- The contribution classification of `main`'s inner loop, over an oracle
`ev` giving the loaded event list per issue number (abstracting the cached
`loadEvents` result): authored when the author login is the target user;
else merged when the state is `"closed"` and `whoMerged` names the target
user; else none. -/
def classify (ev : Nat → List Event) (p : Pull) : String :=
  if p.user.login = targetUser then "authored"
  else if p.state = "closed" ∧ (whoMerged (ev p.number)).login = targetUser
    then "merged"
  else "none"

/-- `sort.Sort(PullList(pagePulls))` with `Less(i,j) = Number_i > Number_j`:
a permutation of the page ordered by descending number.  Go's `sort.Sort` is
an unstable comparison sort specified only up to its contract (a sorted
permutation), realized here by insertion sort. -/
def sortPulls (ps : List Pull) : List Pull :=
  List.insertionSort (fun a b => b.number ≤ a.number) ps

/-- The per-repository accumulator of `main`: `pulls`, `authored`, `merged`.
The finalized value is the `RepoResult` handed to the renderer. -/
structure DState where
  pulls : List Pull
  authored : Nat
  merged : Nat
deriving DecidableEq

/-- The inner loop of `main` over one (already sorted) page: parse the
timestamp (fatal on failure), skip years above 2021, stop (`done = true`)
on years below 2021, otherwise set the display timestamp, classify, and on
authored/merged bump the counter and append.  Returns the updated state and
the `done` flag. -/
def processPulls (ev : Nat → List Event) :
    List Pull → DState → Option (DState × Bool)
  | [], st => some (st, false)
  | p :: rest, st =>
    match parseYear p.createdAt with
    | none => none
    | some y =>
      if y > targetYear then processPulls ev rest st
      else if y < targetYear then some (st, true)
      else
        let p1 := { p with timestamp := formatDate p.createdAt }
        if classify ev p1 = "authored" then
          processPulls ev rest
            { st with
              pulls := st.pulls ++ [{ p1 with myContribution := "authored" }],
              authored := st.authored + 1 }
        else if classify ev p1 = "merged" then
          processPulls ev rest
            { st with
              pulls := st.pulls ++ [{ p1 with myContribution := "merged" }],
              merged := st.merged + 1 }
        else
          processPulls ev rest st

/-- The page loop of `main` for one repository, over an oracle
`load : Nat → List Pull` giving each page's pull requests (abstracting the
cached `loadPulls` result).  Returns the final accumulator and the list of
page numbers that were loaded; `none` models a fatal error.  `fuel` bounds
the recursion of Go's unbounded `for` loop; the loop itself stops on an
empty page or on the year cutoff (`done`). -/
def runPagesAux (ev : Nat → List Event) (load : Nat → List Pull) :
    Nat → Nat → DState → Option (DState × List Nat)
  | 0, _, st => some (st, [])
  | fuel + 1, page, st =>
    let pagePulls := load page
    if pagePulls = [] then some (st, [page])
    else
      match processPulls ev (sortPulls pagePulls) st with
      | none => none
      | some (st1, true) => some (st1, [page])
      | some (st1, false) =>
        (runPagesAux ev load fuel (page + 1) st1).map
          (fun r => (r.1, page :: r.2))

/-- One repository's full traversal, from page 1 and the empty accumulator,
as `main` performs before handing `RepoResult{repo, pulls, authored, merged}`
to the renderer. -/
def runRepo (ev : Nat → List Event) (load : Nat → List Pull) (fuel : Nat) :
    Option (DState × List Nat) :=
  runPagesAux ev load fuel 1 ⟨[], 0, 0⟩

/-! ### Helper lemmas shared by several claims -/

theorem lastIndexOf_isSome_of_mem {c : Char} {l : List Char} (h : c ∈ l) :
    (lastIndexOf c l).isSome := by
  induction l with
  | nil => cases h
  | cons x xs ih =>
    rw [lastIndexOf]
    cases hx : lastIndexOf c xs with
    | some i => rfl
    | none =>
      rcases List.mem_cons.mp h with h1 | h2
      · simp [h1]
      · exact absurd (ih h2) (by simp [hx])

theorem lastIndexOf_eq_none_of_not_mem {c : Char} {l : List Char}
    (h : c ∉ l) : lastIndexOf c l = none := by
  induction l with
  | nil => rfl
  | cons x xs ih =>
    rw [lastIndexOf, ih (fun hm => h (List.mem_cons_of_mem x hm))]
    have hxc : ¬x = c := fun he => h (by simp [he])
    simp [hxc]

theorem writeCache_eq_some (store : Store) (p : String) (d : Bytes)
    (h : '/' ∈ p.data) : writeCache store p d = some ((p, d) :: store) := by
  obtain ⟨i, hi⟩ := Option.isSome_iff_exists.mp (lastIndexOf_isSome_of_mem h)
  simp [writeCache, writeCacheSubdir, hi]

theorem slash_mem_append_left {s : String} (t : String) (h : '/' ∈ s.data) :
    '/' ∈ (s ++ t).data := by
  rw [String.data_append]
  exact List.mem_append_left _ h

theorem slash_mem_pullsPath (repo : String) (page : Nat) :
    '/' ∈ (pullsPath repo page).data := by
  unfold pullsPath
  exact slash_mem_append_left _ (slash_mem_append_left _
    (slash_mem_append_left _ (slash_mem_append_left _ (by decide))))

theorem slash_mem_eventsPath (repo : String) (issueNumber : Nat) :
    '/' ∈ (eventsPath repo issueNumber).data := by
  unfold eventsPath
  exact slash_mem_append_left _ (slash_mem_append_left _
    (slash_mem_append_left _ (slash_mem_append_left _ (by decide))))

theorem slash_mem_commitsPath (repo : String) (sha : String) :
    '/' ∈ (commitsPath repo sha).data := by
  unfold commitsPath
  exact slash_mem_append_left _ (slash_mem_append_left _
    (slash_mem_append_left _ (slash_mem_append_left _ (by decide))))

theorem readCache_write_self (store : Store) (k : String) (b : Bytes) :
    readCache ((k, b) :: store) k = some b := by
  simp [readCache, List.find?_cons_of_pos]

/-! ### C4 — cache write-then-read returns the written bytes -/

/-- C4: for every cache key `k` (every path the program forms contains a
slash, the precondition under which `writeCache` completes) and bytes `b`,
`write(k, b)` followed by `read(k)` yields exactly `b`, and a second
`read(k)` without an intervening write yields the same `b` again, the store
unchanged by the reads. -/
theorem cache_write_then_read (store : Store) (k : String) (b : Bytes)
    (h : '/' ∈ k.data) :
    ∃ store1, writeCache store k b = some store1 ∧
      readCacheOp store1 k = (some b, store1) ∧
      readCacheOp (readCacheOp store1 k).2 k = (some b, store1) := by
  refine ⟨(k, b) :: store, writeCache_eq_some store k b h, ?_, ?_⟩ <;>
    simp [readCacheOp, readCache_write_self]

theorem cache_write_then_read_witness :
    ∃ store1, writeCache [] "a/b" [1, 2] = some store1 ∧
      readCacheOp store1 "a/b" = (some [1, 2], store1) ∧
      readCacheOp (readCacheOp store1 "a/b").2 "a/b" = (some [1, 2], store1) :=
  cache_write_then_read [] "a/b" [1, 2] (by decide)

/-! ### C10 — the last-slash slice in writeCache -/

/-- C10: `writeCache` slices its path at the last `/`; on a slash-free path
the slice is out of bounds (the model's `none`, Go's panic), and `writeCache`
dies exactly when that slice does.  Every path the loaders pass —
`cache/<repo>/pulls/<page>.json`, `cache/<repo>/events/<n>.json`,
`cache/<repo>/commits/<sha>.json` — contains a `/`, so the slice is always
in bounds there. -/
theorem writeCache_slash_requirement :
    (∀ p : String, '/' ∉ p.data → writeCacheSubdir p = none) ∧
    (∀ p : String, '/' ∈ p.data → (writeCacheSubdir p).isSome) ∧
    (∀ (store : Store) (p : String) (d : Bytes),
       writeCache store p d = none ↔ writeCacheSubdir p = none) ∧
    (∀ repo page, (writeCacheSubdir (pullsPath repo page)).isSome) ∧
    (∀ repo issueNumber, (writeCacheSubdir (eventsPath repo issueNumber)).isSome) ∧
    (∀ repo sha, (writeCacheSubdir (commitsPath repo sha)).isSome) := by
  have hnone : ∀ p : String, '/' ∉ p.data → writeCacheSubdir p = none := by
    intro p hp
    simp [writeCacheSubdir, lastIndexOf_eq_none_of_not_mem hp]
  have hsome : ∀ p : String, '/' ∈ p.data → (writeCacheSubdir p).isSome := by
    intro p hp
    obtain ⟨i, hi⟩ := Option.isSome_iff_exists.mp (lastIndexOf_isSome_of_mem hp)
    simp [writeCacheSubdir, hi]
  refine ⟨hnone, hsome, ?_, ?_, ?_, ?_⟩
  · intro store p d
    unfold writeCache
    cases hs : writeCacheSubdir p <;> simp
  · exact fun repo page => hsome _ (slash_mem_pullsPath repo page)
  · exact fun repo n => hsome _ (slash_mem_eventsPath repo n)
  · exact fun repo sha => hsome _ (slash_mem_commitsPath repo sha)

theorem writeCache_slash_requirement_witness :
    writeCacheSubdir "noslash.json" = none :=
  writeCache_slash_requirement.1 "noslash.json" (by decide)

/-! ### C6 — httpGet status handling -/

/-- C6 counterexample: a received response with status 199 is outside the
claimed success range [200, 299], yet `httpGet` does not terminate the
process — it returns the full body. -/
theorem httpGet_low_status_returns_body :
    httpGet (fun _ => some (199, [7])) "u" = some [7] ∧ ¬(200 ≤ 199) :=
  ⟨rfl, by decide⟩

/-- C6 amended: the Go code checks only `resp.StatusCode > 299`.  For every
received response, `httpGet` terminates the process exactly when the status
exceeds 299, and returns the full response body exactly when the status is
at most 299 (including sub-200 statuses). -/
theorem httpGet_status_check (remote : String → Option (Nat × Bytes))
    (url : String) (status : Nat) (body : Bytes)
    (h : remote url = some (status, body)) :
    (httpGet remote url = none ↔ 299 < status) ∧
    (httpGet remote url = some body ↔ status ≤ 299) := by
  unfold httpGet
  rw [h]
  by_cases hs : 299 < status <;> simp [hs] <;> omega

theorem httpGet_status_check_witness :
    (httpGet (fun _ => some (300, [5])) "u" = none ↔ 299 < 300) ∧
    (httpGet (fun _ => some (300, [5])) "u" = some [5] ↔ 300 ≤ 299) :=
  httpGet_status_check (fun _ => some (300, [5])) "u" 300 [5] rfl

/-! ### C5 — cache hit never touches the network -/

/-- C5: when the cache read for the key succeeds, each of the three loaders
returns directly from the cached bytes: the store is unchanged and the list
of fetched URLs is empty — `httpGet` (and with it the 5000 ms rate-limit
delay) is never invoked. -/
theorem loaders_cache_first
    (decodeP : Bytes → Option (List Pull))
    (decodeE : Bytes → Option (List Event))
    (decodeC : Bytes → Option Commit)
    (remote : String → Option (Nat × Bytes)) (store : Store)
    (repo : String) (page issueNumber : Nat) (sha : String)
    (dataP dataE dataC : Bytes)
    (hP : readCache store (pullsPath repo page) = some dataP)
    (hE : readCache store (eventsPath repo issueNumber) = some dataE)
    (hC : readCache store (commitsPath repo sha) = some dataC) :
    loadPulls decodeP remote store repo page =
      some ⟨(decodeP dataP).getD [], store, []⟩ ∧
    loadEvents decodeE remote store repo issueNumber =
      some ⟨(decodeE dataE).getD [], store, []⟩ ∧
    loadCommit decodeC remote store repo sha =
      some ⟨(decodeC dataC).getD ⟨⟨""⟩⟩, store, []⟩ := by
  refine ⟨?_, ?_, ?_⟩
  · simp [loadPulls, hP]
  · simp [loadEvents, hE]
  · simp [loadCommit, hC]

theorem loaders_cache_first_witness :
    loadPulls (fun _ => some []) (fun _ => none)
        [(pullsPath "r" 1, [9]), (eventsPath "r" 2, [8]),
         (commitsPath "r" "s", [7])] "r" 1 =
      some ⟨[], [(pullsPath "r" 1, [9]), (eventsPath "r" 2, [8]),
        (commitsPath "r" "s", [7])], []⟩ :=
  (loaders_cache_first (fun _ => some []) (fun _ => some [])
    (fun _ => none) (fun _ => none)
    [(pullsPath "r" 1, [9]), (eventsPath "r" 2, [8]), (commitsPath "r" "s", [7])]
    "r" 1 2 "s" [9] [8] [7] (by decide) (by decide) (by decide)).1

/-! ### C1 — decode failure of cached bytes -/

/-- C1 counterexample: on a cache hit whose bytes fail to decode, the Go
code ignores the `json.Unmarshal` error (`json.Unmarshal(data, &pulls);
return pulls` with no check), so the process does not terminate: `loadPulls`
returns the zero value normally rather than dying. -/
theorem loadPulls_hit_decode_failure_not_fatal :
    loadPulls (fun _ => none) (fun _ => none)
        [(pullsPath "o/r" 1, [123])] "o/r" 1 =
      some ⟨[], [(pullsPath "o/r" 1, [123])], []⟩ := by
  decide

/-- C1 amended: on a cache hit, a decode failure of the cached bytes is
silently ignored — each loader returns the zero value of its result type
with the store unchanged and nothing fetched (so there is still no fallback
to a fresh remote fetch, and no fatal termination).  Only on a cache miss is
a decode failure of the freshly fetched bytes fatal. -/
theorem loaders_decode_failure_behavior :
    (∀ decodeP remote store repo page data,
       readCache store (pullsPath repo page) = some data →
       decodeP data = none →
       loadPulls decodeP remote store repo page = some ⟨[], store, []⟩) ∧
    (∀ decodeE remote store repo issueNumber data,
       readCache store (eventsPath repo issueNumber) = some data →
       decodeE data = none →
       loadEvents decodeE remote store repo issueNumber =
         some ⟨[], store, []⟩) ∧
    (∀ decodeC remote store repo sha data,
       readCache store (commitsPath repo sha) = some data →
       decodeC data = none →
       loadCommit decodeC remote store repo sha =
         some ⟨⟨⟨""⟩⟩, store, []⟩) ∧
    (∀ decodeP remote store repo page body,
       readCache store (pullsPath repo page) = none →
       httpGet remote (pullsUrl repo page) = some body →
       decodeP body = none →
       loadPulls decodeP remote store repo page = none) ∧
    (∀ decodeE remote store repo issueNumber body,
       readCache store (eventsPath repo issueNumber) = none →
       httpGet remote (eventsUrl repo issueNumber) = some body →
       decodeE body = none →
       loadEvents decodeE remote store repo issueNumber = none) ∧
    (∀ decodeC remote store repo sha body,
       readCache store (commitsPath repo sha) = none →
       httpGet remote (commitsUrl repo sha) = some body →
       decodeC body = none →
       loadCommit decodeC remote store repo sha = none) := by
  refine ⟨?_, ?_, ?_, ?_, ?_, ?_⟩
  · intro dP remote store repo page data hr hd
    simp [loadPulls, hr, hd]
  · intro dE remote store repo n data hr hd
    simp [loadEvents, hr, hd]
  · intro dC remote store repo sha data hr hd
    simp [loadCommit, hr, hd]
  · intro dP remote store repo page body hr hg hd
    simp [loadPulls, hr, hg, hd,
      writeCache_eq_some store _ body (slash_mem_pullsPath repo page)]
  · intro dE remote store repo n body hr hg hd
    simp [loadEvents, hr, hg, hd,
      writeCache_eq_some store _ body (slash_mem_eventsPath repo n)]
  · intro dC remote store repo sha body hr hg hd
    simp [loadCommit, hr, hg, hd,
      writeCache_eq_some store _ body (slash_mem_commitsPath repo sha)]

theorem loaders_decode_failure_behavior_witness :
    loadEvents (fun _ => none) (fun _ => none)
        [(eventsPath "r" 7, [0])] "r" 7 =
      some ⟨[], [(eventsPath "r" 7, [0])], []⟩ :=
  loaders_decode_failure_behavior.2.1 (fun _ => none) (fun _ => none)
    [(eventsPath "r" 7, [0])] "r" 7 [0] (by decide) rfl

/-! ### C2 — contribution classification -/

/-- C2: classification against the target user: an author-login match gives
`"authored"` regardless of state or events; otherwise a state other than
`"closed"` gives `"none"`; otherwise the tag is `"merged"` exactly when
`whoMerged` — the actor of the first `"merged"` event, or the sentinel
`"nobody"` when there is none — names the target user, and `"none"`
otherwise. -/
theorem classify_correct :
    (∀ ev p, p.user.login = targetUser → classify ev p = "authored") ∧
    (∀ ev p, p.user.login ≠ targetUser → p.state ≠ "closed" →
       classify ev p = "none") ∧
    (∀ ev p, p.user.login ≠ targetUser → p.state = "closed" →
       (classify ev p = "merged" ↔
         (whoMerged (ev p.number)).login = targetUser)) ∧
    (∀ ev p, p.user.login ≠ targetUser → p.state = "closed" →
       (whoMerged (ev p.number)).login ≠ targetUser →
       classify ev p = "none") ∧
    (∀ (pre : List Event) e post, e.event = "merged" →
       (∀ q ∈ pre, q.event ≠ "merged") →
       whoMerged (pre ++ e :: post) = e.actor) ∧
    (∀ events : List Event, (∀ q ∈ events, q.event ≠ "merged") →
       whoMerged events = ⟨"nobody"⟩) := by
  have hnone : ∀ (events : List Event), (∀ q ∈ events, q.event ≠ "merged") →
      events.find? (fun e => e.event == "merged") = none := by
    intro events h
    exact List.find?_eq_none.mpr (fun x hx => by simp [h x hx])
  refine ⟨?_, ?_, ?_, ?_, ?_, ?_⟩
  · intro ev p h
    simp [classify, h]
  · intro ev p h1 h2
    simp [classify, h1, h2]
  · intro ev p h1 h2
    by_cases hw : (whoMerged (ev p.number)).login = targetUser
    · simp [classify, h1, h2, hw]
    · simp [classify, h1, h2, hw]
  · intro ev p h1 h2 h3
    simp [classify, h1, h2, h3]
  · intro pre e post he hpre
    simp [whoMerged, List.find?_append, hnone pre hpre,
      List.find?_cons_of_pos, he]
  · intro events h
    simp [whoMerged, hnone events h]

theorem classify_correct_witness :
    classify (fun _ => [])
      ⟨5, "u5", "2021-03-01T00:00:00Z", "", "open", "t5", ⟨"mpenkov"⟩, "", ""⟩ =
      "authored" :=
  classify_correct.1 (fun _ => [])
    ⟨5, "u5", "2021-03-01T00:00:00Z", "", "open", "t5", ⟨"mpenkov"⟩, "", ""⟩ rfl

/-! ### Sample pull requests used by witnesses -/

/-- A pull request created in 2022 (skipped by the year filter). -/
def pull2022 : Pull :=
  ⟨9, "u9", "2022-01-01T00:00:00Z", "", "open", "t9", ⟨"alice"⟩, "", ""⟩

/-- A pull request created in 2020 (triggers the year cutoff). -/
def pull2020 : Pull :=
  ⟨3, "u3", "2020-12-31T00:00:00Z", "", "open", "t3", ⟨"alice"⟩, "", ""⟩

/-- A 2021 pull request authored by the target user. -/
def pull2021 : Pull :=
  ⟨5, "u5", "2021-03-01T12:30:45Z", "", "open", "t5", ⟨"mpenkov"⟩, "", ""⟩

/-! ### C8 — descending sort of each page -/

/-- C8: sorting a page yields a permutation of it ordered by descending
pull-request number (every earlier element's number is at least every later
one's, the guarantee of `sort.Sort` with `Less(i,j) = Number_i > Number_j`),
and for a non-empty page the Pagination Driver visits exactly the sorted
sequence `sortPulls (load page)`. -/
theorem sortPulls_descending :
    (∀ ps : List Pull, (sortPulls ps).Perm ps) ∧
    (∀ ps : List Pull,
       (sortPulls ps).Pairwise (fun a b => b.number ≤ a.number)) ∧
    (∀ ev load fuel page st, load page ≠ [] →
       runPagesAux ev load (fuel + 1) page st =
         match processPulls ev (sortPulls (load page)) st with
         | none => none
         | some (st1, true) => some (st1, [page])
         | some (st1, false) =>
           (runPagesAux ev load fuel (page + 1) st1).map
             (fun r => (r.1, page :: r.2))) := by
  refine ⟨fun ps => List.perm_insertionSort _ ps, ?_, ?_⟩
  · intro ps
    haveI : IsTotal Pull (fun a b => b.number ≤ a.number) :=
      ⟨fun a b => Nat.le_total b.number a.number⟩
    haveI : IsTrans Pull (fun a b => b.number ≤ a.number) :=
      ⟨fun a b c hab hbc => Nat.le_trans hbc hab⟩
    exact List.sorted_insertionSort _ ps
  · intro ev load fuel page st h
    rw [runPagesAux]
    simp only [if_neg h]

theorem sortPulls_descending_witness :
    runPagesAux (fun _ => []) (fun _ => [pull2022]) (0 + 1) 1 ⟨[], 0, 0⟩ =
      some (⟨[], 0, 0⟩, [1]) := by
  rw [sortPulls_descending.2.2 (fun _ => []) (fun _ => [pull2022]) 0 1
    ⟨[], 0, 0⟩ (by decide)]
  decide

/-! ### C7 — an empty page stops pagination -/

theorem runPagesAux_trace_ge (ev : Nat → List Event)
    (load : Nat → List Pull) :
    ∀ fuel page st st1 trace,
      runPagesAux ev load fuel page st = some (st1, trace) →
      ∀ n ∈ trace, page ≤ n := by
  intro fuel
  induction fuel with
  | zero =>
    intro page st st1 trace h n hn
    simp only [runPagesAux, Option.some.injEq, Prod.mk.injEq] at h
    obtain ⟨-, rfl⟩ := h
    cases hn
  | succ fuel ih =>
    intro page st st1 trace h n hn
    rw [runPagesAux] at h
    by_cases hempty : load page = []
    · rw [if_pos hempty] at h
      simp only [Option.some.injEq, Prod.mk.injEq] at h
      obtain ⟨-, rfl⟩ := h
      simp only [List.mem_singleton] at hn
      omega
    · rw [if_neg hempty] at h
      split at h
      · cases h
      · simp only [Option.some.injEq, Prod.mk.injEq] at h
        obtain ⟨-, rfl⟩ := h
        simp only [List.mem_singleton] at hn
        omega
      · rename_i st2 hp
        rcases hr : runPagesAux ev load fuel (page + 1) st2 with - | ⟨st3, rest⟩
        · rw [hr] at h
          cases h
        · rw [hr] at h
          simp only [Option.map_some', Option.some.injEq, Prod.mk.injEq] at h
          obtain ⟨-, rfl⟩ := h
          rcases List.mem_cons.mp hn with rfl | hmem
          · exact Nat.le_refl n
          · have := ih (page + 1) st2 st3 rest hr n hmem
            omega

/-- C7: in any completed traversal, when loading page `n` yielded an empty
pull-request list the traversal stopped requesting pages there: page `n + 1`
was never loaded for that repository. -/
theorem empty_page_stops_pagination (ev : Nat → List Event)
    (load : Nat → List Pull) :
    ∀ fuel page st st1 trace n,
      runPagesAux ev load fuel page st = some (st1, trace) →
      n ∈ trace → load n = [] → n + 1 ∉ trace := by
  intro fuel
  induction fuel with
  | zero =>
    intro page st st1 trace n h hn hload
    simp only [runPagesAux, Option.some.injEq, Prod.mk.injEq] at h
    obtain ⟨-, rfl⟩ := h
    cases hn
  | succ fuel ih =>
    intro page st st1 trace n h hn hload
    rw [runPagesAux] at h
    by_cases hempty : load page = []
    · rw [if_pos hempty] at h
      simp only [Option.some.injEq, Prod.mk.injEq] at h
      obtain ⟨-, rfl⟩ := h
      simp only [List.mem_singleton] at hn
      subst hn
      simp only [List.mem_singleton]
      omega
    · rw [if_neg hempty] at h
      split at h
      · cases h
      · simp only [Option.some.injEq, Prod.mk.injEq] at h
        obtain ⟨-, rfl⟩ := h
        simp only [List.mem_singleton] at hn
        subst hn
        exact absurd hload hempty
      · rename_i st2 hp
        rcases hr : runPagesAux ev load fuel (page + 1) st2 with - | ⟨st3, rest⟩
        · rw [hr] at h
          cases h
        · rw [hr] at h
          simp only [Option.map_some', Option.some.injEq, Prod.mk.injEq] at h
          obtain ⟨-, rfl⟩ := h
          rcases List.mem_cons.mp hn with rfl | hmem
          · exact absurd hload hempty
          · have h1 := ih (page + 1) st2 st3 rest n hr hmem hload
            have h2 := runPagesAux_trace_ge ev load fuel (page + 1) st2
              st3 rest hr n hmem
            simp only [List.mem_cons]
            push_neg
            exact ⟨by omega, h1⟩

theorem empty_page_stops_pagination_witness : (1 + 1 : Nat) ∉ ([1] : List Nat) :=
  empty_page_stops_pagination (fun _ => []) (fun _ => []) 1 1
    ⟨[], 0, 0⟩ ⟨[], 0, 0⟩ [1] 1 (by decide) (by decide) rfl

/-! ### C3 — the year cutoff stops the whole repository -/

theorem processPulls_stop (ev : Nat → List Event) (p : Pull)
    (post : List Pull)
    (hp : ∃ y, parseYear p.createdAt = some y ∧ y < targetYear) :
    ∀ (pre : List Pull) st,
      (∀ q ∈ pre, ∃ y, parseYear q.createdAt = some y ∧ targetYear ≤ y) →
      processPulls ev (pre ++ p :: post) st =
        (processPulls ev pre st).map (fun r => (r.1, true)) := by
  intro pre
  induction pre with
  | nil =>
    intro st _
    obtain ⟨y, hy, hlt⟩ := hp
    have hngt : ¬targetYear < y := Nat.lt_asymm hlt
    simp only [List.nil_append, processPulls, hy, if_neg hngt, if_pos hlt,
      Option.map_some']
  | cons q pre ih =>
    intro st hall
    obtain ⟨yq, hyq, hge⟩ := hall q (List.mem_cons_self q pre)
    have htail : ∀ r ∈ pre, ∃ y, parseYear r.createdAt = some y ∧
        targetYear ≤ y := fun r hr => hall r (List.mem_cons_of_mem q hr)
    rw [List.cons_append]
    by_cases hgt : targetYear < yq
    · simp only [processPulls, hyq, if_pos hgt]
      exact ih st htail
    · have hnlt : ¬yq < targetYear := Nat.not_lt.mpr hge
      simp only [processPulls, hyq, if_neg hgt, if_neg hnlt]
      by_cases hc1 :
          classify ev { q with timestamp := formatDate q.createdAt } =
            "authored"
      · simp only [if_pos hc1]
        exact ih _ htail
      · simp only [if_neg hc1]
        by_cases hc2 :
            classify ev { q with timestamp := formatDate q.createdAt } =
              "merged"
        · simp only [if_pos hc2]
          exact ih _ htail
        · simp only [if_neg hc2]
          exact ih _ htail

/-- C3: a pull request whose parsed year exceeds the target year is merely
skipped; when one whose parsed year is below the target year is reached
(every earlier entry of the sorted page parsed to a year at or above the
target), the inner loop's result is exactly the result of the entries before
it with `done = true` — the reached pull request and everything after it on
the page contribute nothing — and a page whose processing ends with
`done = true` is the last page the driver loads for the repository. -/
theorem year_cutoff_stops_repo :
    (∀ ev p (rest : List Pull) st y, parseYear p.createdAt = some y →
       targetYear < y →
       processPulls ev (p :: rest) st = processPulls ev rest st) ∧
    (∀ ev (pre : List Pull) p (post : List Pull) st,
       (∀ q ∈ pre, ∃ y, parseYear q.createdAt = some y ∧ targetYear ≤ y) →
       (∃ y, parseYear p.createdAt = some y ∧ y < targetYear) →
       processPulls ev (pre ++ p :: post) st =
         (processPulls ev pre st).map (fun r => (r.1, true))) ∧
    (∀ ev load fuel page st st1, load page ≠ [] →
       processPulls ev (sortPulls (load page)) st = some (st1, true) →
       runPagesAux ev load (fuel + 1) page st = some (st1, [page])) := by
  refine ⟨?_, ?_, ?_⟩
  · intro ev p rest st y hy hgt
    simp only [processPulls, hy, if_pos hgt]
  · intro ev pre p post st hall hp
    exact processPulls_stop ev p post hp pre st hall
  · intro ev load fuel page st st1 hne hdone
    rw [runPagesAux]
    simp only [if_neg hne, hdone]

theorem year_cutoff_stops_repo_witness :
    processPulls (fun _ => []) ([] ++ pull2020 :: [pull2021]) ⟨[], 0, 0⟩ =
      (processPulls (fun _ => []) [] ⟨[], 0, 0⟩).map (fun r => (r.1, true)) :=
  year_cutoff_stops_repo.2.1 (fun _ => []) [] pull2020 [pull2021] ⟨[], 0, 0⟩
    (by simp) ⟨2020, by decide, by decide⟩

/-! ### C9 — authored + merged = number of accumulated pulls -/

theorem processPulls_counts (ev : Nat → List Event) :
    ∀ (ps : List Pull) st st1 d,
      processPulls ev ps st = some (st1, d) →
      st1.pulls.length + st.authored + st.merged =
        st.pulls.length + st1.authored + st1.merged := by
  intro ps
  induction ps with
  | nil =>
    intro st st1 d h
    simp only [processPulls, Option.some.injEq, Prod.mk.injEq] at h
    obtain ⟨rfl, -⟩ := h
    omega
  | cons p rest ih =>
    intro st st1 d h
    rw [processPulls] at h
    split at h
    · cases h
    · rename_i y hy
      split at h
      · exact ih _ _ _ h
      · split at h
        · simp only [Option.some.injEq, Prod.mk.injEq] at h
          obtain ⟨rfl, -⟩ := h
          omega
        · dsimp only at h
          split at h
          · have h2 := ih _ _ _ h
            simp only [List.length_append, List.length_cons,
              List.length_nil] at h2 ⊢
            omega
          · split at h
            · have h2 := ih _ _ _ h
              simp only [List.length_append, List.length_cons,
                List.length_nil] at h2 ⊢
              omega
            · exact ih _ _ _ h

theorem runPagesAux_counts (ev : Nat → List Event)
    (load : Nat → List Pull) :
    ∀ fuel page st st1 trace,
      runPagesAux ev load fuel page st = some (st1, trace) →
      st1.pulls.length + st.authored + st.merged =
        st.pulls.length + st1.authored + st1.merged := by
  intro fuel
  induction fuel with
  | zero =>
    intro page st st1 trace h
    simp only [runPagesAux, Option.some.injEq, Prod.mk.injEq] at h
    obtain ⟨rfl, -⟩ := h
    omega
  | succ fuel ih =>
    intro page st st1 trace h
    rw [runPagesAux] at h
    by_cases hempty : load page = []
    · rw [if_pos hempty] at h
      simp only [Option.some.injEq, Prod.mk.injEq] at h
      obtain ⟨rfl, -⟩ := h
      omega
    · rw [if_neg hempty] at h
      split at h
      · cases h
      · rename_i st2 hp
        simp only [Option.some.injEq, Prod.mk.injEq] at h
        obtain ⟨rfl, -⟩ := h
        exact processPulls_counts ev _ _ _ _ hp
      · rename_i st2 hp
        rcases hr : runPagesAux ev load fuel (page + 1) st2 with - | ⟨st3, rest⟩
        · rw [hr] at h
          cases h
        · rw [hr] at h
          simp only [Option.map_some', Option.some.injEq, Prod.mk.injEq] at h
          obtain ⟨rfl, -⟩ := h
          have h1 := processPulls_counts ev _ _ _ _ hp
          have h2 := ih (page + 1) st2 st3 rest hr
          omega

/-- C9: every completed traversal hands the renderer a result in which
`Authored + Merged` equals the length of the accumulated `Pulls` sequence
(each appended pull request bumps exactly one of the two counters), and a
target-year pull request classified `"none"` is neither appended nor
counted — the loop continues with the state untouched. -/
theorem repo_result_counter_invariant :
    (∀ ev load fuel st trace, runRepo ev load fuel = some (st, trace) →
       st.authored + st.merged = st.pulls.length) ∧
    (∀ ev p (rest : List Pull) st, parseYear p.createdAt = some targetYear →
       classify ev { p with timestamp := formatDate p.createdAt } = "none" →
       processPulls ev (p :: rest) st = processPulls ev rest st) := by
  constructor
  · intro ev load fuel st trace h
    have h1 := runPagesAux_counts ev load fuel 1 ⟨[], 0, 0⟩ st trace h
    simp only [List.length_nil] at h1
    omega
  · intro ev p rest st hy hc
    have hngt : ¬targetYear < targetYear := Nat.lt_irrefl _
    simp only [processPulls, hy, if_neg hngt, hc]
    simp

theorem repo_result_counter_invariant_witness :
    (DState.mk [] 0 0).authored + (DState.mk [] 0 0).merged =
      (DState.mk [] 0 0).pulls.length :=
  repo_result_counter_invariant.1 (fun _ => []) (fun _ => []) 1
    ⟨[], 0, 0⟩ [1] (by decide)

end GH
